import Mathlib

/-!
Verification of the client-side Kanban board core of the student-dashboard
repository (src/script.js). The data model and the operations below are a
shallow embedding of that file: pure Lean functions over explicit state,
with JavaScript mutation rendered as state passing. DOM access, toasts and
Firebase I/O are out of scope; what they feed into the board state (loaded
documents, form fields, drop targets, undo closures) is passed as explicit
arguments.
-/

namespace Kanban

/-! ## String helpers

JavaScript string primitives used by script.js, modelled on the character
list underlying a Lean String so that proofs and kernel evaluation stay
elementary. The app only ever compares ASCII strings, for which
Char.toLower agrees with JavaScript toLowerCase. -/

/-- Model of JavaScript String.prototype.toLowerCase (ASCII-adequate). -/
def strLower (s : String) : String := ⟨s.data.map Char.toLower⟩

/-- Helper for substring search: does `sub` occur as a contiguous run inside `l`. -/
def hasInfixChars (sub : List Char) : List Char → Bool
  | [] => sub.isEmpty
  | c :: cs => sub.isPrefixOf (c :: cs) || hasInfixChars sub cs

/-- Model of JavaScript String.prototype.includes: `containsSub s sub` is
`s.includes(sub)`. -/
def containsSub (s sub : String) : Bool := hasInfixChars sub.data s.data

/-- ASCII whitespace, for trim. -/
def isSpaceChar (c : Char) : Bool := c == ' ' || c == '\t' || c == '\n' || c == '\r'

/-- Drop leading whitespace characters. -/
def dropLeadingSpace : List Char → List Char
  | [] => []
  | c :: cs => if isSpaceChar c then dropLeadingSpace cs else c :: cs

/-- Model of JavaScript String.prototype.trim: strip whitespace at both ends. -/
def strTrim (s : String) : String :=
  ⟨(dropLeadingSpace (dropLeadingSpace s.data.reverse).reverse)⟩

/-! ## Data model (script.js state, lines 1-25, and the task shape built at
lines 149-160, 772-786 and 1027-1038) -/

/-- One checklist entry of a task: `{text, completed}`. -/
structure Subtask where
  text : String
  completed : Bool
deriving DecidableEq

/-- Attachment metadata stored on a task by handleFileDrop. -/
structure FileMeta where
  name : String
  size : Nat
  type : String
  lastModified : Nat
  url : String
deriving DecidableEq

/-- A task record. `dueDate` is stored by the code either as a date string
(Firebase load path) or as epoch milliseconds (form path); both are read back
through `new Date(...)`, so it is modelled as the epoch-milliseconds value that
denotes, with `none` for the JavaScript-falsy cases (null, empty string).
`updatedAt` is absent on tasks loaded from Firebase, hence an Option. -/
structure Task where
  id : String
  title : String
  description : String
  status : String
  priority : String
  dueDate : Option Int
  pinned : Bool
  subtasks : List Subtask
  files : List FileMeta
  createdAt : Nat
  updatedAt : Option Nat
deriving DecidableEq

/-- The snapshot deleteTask places in state.lastDeletedTask:
`{...taskToDelete, deletedAt: Date.now()}` (script.js line 1233). -/
structure DeletedSnapshot where
  task : Task
  deletedAt : Nat
deriving DecidableEq

/-- The sortOrder view criterion: "none" or "asc" or "desc". -/
inductive SortOrder where
  | none
  | asc
  | desc
deriving DecidableEq, BEq

/-- The board-relevant part of the global `state` object (script.js lines
11-25). Theme handling is presentation glue and is not modelled. -/
structure BoardState where
  tasks : List Task
  filterQuery : String
  priorityFilter : String
  sortOrder : SortOrder
  lastDeletedTask : Option DeletedSnapshot
deriving DecidableEq

/-- The three fixed columns (script.js lines 186-190); only the ids matter to
the state logic, the titles are markup. -/
def columnIds : List String := ["todo", "progress", "done"]

/-! ## Stable sort with a JavaScript comparator

Array.prototype.sort with a consistent comparator produces the unique stable
order (stability is guaranteed since ES2019). We model it as a stable
insertion sort over an Int-valued comparator: an element is inserted before
the first element it compares ≤ 0 against, which for a total preorder
comparator yields exactly the stable sorted order. -/

/-- Insert `a` into `l` before the first element `b` with `cmp a b ≤ 0`. -/
def insertCmp (cmp : α → α → Int) (a : α) : List α → List α
  | [] => [a]
  | b :: bs => if cmp a b ≤ 0 then a :: b :: bs else b :: insertCmp cmp a bs

/-- Stable sort by an Int comparator (model of Array.prototype.sort). -/
def stableSortCmp (cmp : α → α → Int) : List α → List α
  | [] => []
  | a :: as => insertCmp cmp a (stableSortCmp cmp as)

/-! ## sortTasksByDueDate (script.js lines 415-431) -/

/-- The comparator inside sortTasksByDueDate. The early-return chain of the
source is mirrored: both dates missing gives 0; a missing date goes to the
end for "asc" and to the start for "desc"; otherwise the numeric date
difference decides. -/
def dueDateCmp (order : SortOrder) (a b : Task) : Int :=
  match a.dueDate, b.dueDate with
  | Option.none, Option.none => 0
  | Option.none, some _ => if order == SortOrder.asc then 1 else -1
  | some _, Option.none => if order == SortOrder.asc then -1 else 1
  | some da, some db => if order == SortOrder.asc then da - db else db - da

/-- sortTasksByDueDate: returns a copy unchanged when order is "none", else a
stably sorted copy. -/
def sortTasksByDueDate (tasks : List Task) (order : SortOrder) : List Task :=
  if order == SortOrder.none then tasks else stableSortCmp (dueDateCmp order) tasks

/-! ## renderBoard projection (script.js lines 449-512) -/

/-- The value the renderBoard comparator effectively returns in its due-date
branch. The source returns `sortTasksByDueDate([a, b], state.sortOrder)`,
which is an Array of two task objects, not a number. ES SortCompare applies
ToNumber to the comparator result; ToNumber of a two-element Array goes
through its string form "[object Object],[object Object]" and yields NaN, and
SortCompare maps NaN to +0. The branch therefore always contributes 0. -/
def sortCompareArrayResult : Int := 0

/-- The comparator passed to columnTasks.sort in renderBoard (lines 470-481):
pinned first, then the (ineffective, see sortCompareArrayResult) due-date
branch, else 0. -/
def renderCmp (so : SortOrder) (a b : Task) : Int :=
  if a.pinned && !b.pinned then -1
  else if !a.pinned && b.pinned then 1
  else if so != SortOrder.none then sortCompareArrayResult
  else 0

/-- The filter predicate applied per column in renderBoard (lines 453-467):
status match, then search match on title or description, then priority
match. -/
def matchesSearch (q : String) (t : Task) : Bool :=
  q == "" || containsSub (strLower t.title) (strLower q)
    || (t.description != "" && containsSub (strLower t.description) (strLower q))

/-- Priority filter test from renderBoard: "all" passes everything, else the
lowercased task priority must equal the filter value verbatim. -/
def matchesPriority (pf : String) (t : Task) : Bool :=
  pf == "all" || (t.priority != "" && strLower t.priority == pf)

/-- Whether a task is kept in the bucket of column `colId` by renderBoard. -/
def inColumnView (s : BoardState) (colId : String) (t : Task) : Bool :=
  t.status == colId && matchesSearch s.filterQuery t && matchesPriority s.priorityFilter t

/-- The ordered task list renderBoard displays for one column: filter the
store, then sort with the renderBoard comparator. -/
def projectColumn (s : BoardState) (colId : String) : List Task :=
  stableSortCmp (renderCmp s.sortOrder) (s.tasks.filter (fun t => inColumnView s colId t))

/-! ## Mutations -/

/-- Modify the first element satisfying `p` (model of the source pattern
`const x = state.tasks.find(...); if (x) { mutate x }`). -/
def modifyFirst (p : Task → Bool) (f : Task → Task) : List Task → List Task
  | [] => []
  | t :: ts => if p t then f t :: ts else t :: modifyFirst p f ts

/-- updateTaskStatus (script.js lines 729-736): set the status of the first
task with the given id; silently do nothing when the id is absent. -/
def updateTaskStatus (id status : String) (s : BoardState) : BoardState :=
  let ts := modifyFirst (fun t => t.id == id) (fun t => { t with status := status }) s.tasks
  { s with tasks := ts }

/-- togglePin (script.js lines 1192-1200): flip the pinned flag of the first
task with the given id; no-op when absent. -/
def togglePin (id : String) (s : BoardState) : BoardState :=
  let ts := modifyFirst (fun t => t.id == id) (fun t => { t with pinned := !t.pinned }) s.tasks
  { s with tasks := ts }

/-- The title suffix duplicateTask appends. -/
def copySuffix : String := " (Copy)"

/-- The record duplicateTask builds (lines 1207-1217): JSON deep copy of the
original, then fresh id and timestamps, then the title suffix unless the
title already contains it. Record update of immutable data models the deep
copy plus field mutation. -/
def duplicatedTask (t : Task) (now : Nat) : Task :=
  { t with
    id := toString now
    createdAt := now
    updatedAt := some now
    title := if containsSub t.title copySuffix then t.title else t.title ++ copySuffix }

/-- duplicateTask (script.js lines 1202-1226): no-op when the id is absent,
else unshift the duplicated record onto the front of the task list. -/
def duplicateTask (id : String) (now : Nat) (s : BoardState) : BoardState :=
  match s.tasks.find? (fun t => t.id == id) with
  | Option.none => s
  | some t => { s with tasks := duplicatedTask t now :: s.tasks }

/-- deleteTask (script.js lines 1228-1239): no-op when the id is absent, else
store the tagged snapshot in the register and keep exactly the tasks whose id
differs. -/
def deleteTask (id : String) (now : Nat) (s : BoardState) : BoardState :=
  match s.tasks.find? (fun t => t.id == id) with
  | Option.none => s
  | some t =>
    { s with
      lastDeletedTask := some { task := t, deletedAt := now }
      tasks := s.tasks.filter (fun u => !(u.id == id)) }

/-- The undo closure of the delete toast (script.js lines 1246-1257): if the
register is occupied, push the snapshot task (the destructuring
`const \x7bdeletedAt, ...task\x7d` strips the tag) onto the end of the list and
clear the register; otherwise do nothing. The closure reads
state.lastDeletedTask at invocation time, so it is a function of the current
state. -/
def undoDelete (s : BoardState) : BoardState :=
  match s.lastDeletedTask with
  | Option.none => s
  | some snap => { s with tasks := s.tasks ++ [snap.task], lastDeletedTask := Option.none }

/-- clearBoard (script.js lines 908-931): empty the task list. The previous
tasks are captured in the local `previousTasks` binding of the toast undo
closure, returned here as the second component; the lastDeletedTask register
is not touched. -/
def clearBoard (s : BoardState) : BoardState × List Task :=
  ({ s with tasks := [] }, s.tasks)

/-- The undo closure of the clear toast (lines 923-929): restore the captured
snapshot wholesale. -/
def runClearUndo (prev : List Task) (s : BoardState) : BoardState :=
  { s with tasks := prev }

/-- The sortOrder cycle of toggleSortOrder (lines 435-436). -/
def cycleSortOrder : SortOrder → SortOrder
  | SortOrder.none => SortOrder.asc
  | SortOrder.asc => SortOrder.desc
  | SortOrder.desc => SortOrder.none

/-- toggleSortOrder (script.js lines 433-447): advance the cycle; the rest of
the function only restyles the sort button and re-renders. -/
def toggleSortOrder (s : BoardState) : BoardState :=
  { s with sortOrder := cycleSortOrder s.sortOrder }

/-! ## Firebase load (script.js lines 138-172) -/

/-- A document of the remote "tasks" collection as read back by getDocs:
doc.id plus the stored fields, each possibly absent. dueDate is modelled like
Task.dueDate (none covers the empty string the save path writes for a missing
date, which the load maps to null). -/
structure RemoteDoc where
  docId : String
  title : String
  status : String
  dueDate : Option Int
  description : Option String
  priority : Option String
  createdAt : Option Nat
deriving DecidableEq

/-- The task record loadTasksFromFirebase builds per document (lines
149-160): defaults for description, priority, createdAt; pinned false, empty
subtasks and files, no updatedAt. -/
def remoteToTask (nowFallback : Nat) (d : RemoteDoc) : Task :=
  { id := d.docId
    title := d.title
    status := d.status
    dueDate := d.dueDate
    createdAt := d.createdAt.getD nowFallback
    description := d.description.getD ""
    priority := d.priority.getD "medium"
    pinned := false
    subtasks := []
    files := []
    updatedAt := Option.none }

/-- loadTasksFromFirebase: clear the local list, then push one task per
remote document, preserving snapshot order. -/
def loadTasksFromFirebase (docs : List RemoteDoc) (nowFallback : Nat) (s : BoardState) :
    BoardState :=
  { s with tasks := docs.map (remoteToTask nowFallback) }

/-! ## Form submission (script.js lines 1011-1057) -/

/-- The fields handleFormSubmit reads: the form dataset id (none models the
empty string, for which the source substitutes Date.now().toString()), the
text fields, the two select values, the date input (modelled like
Task.dueDate) and the subtask rows read from the modal UI. -/
structure FormInput where
  datasetId : Option String
  title : String
  description : String
  priority : String
  status : String
  dueDate : Option Int
  subtasks : List Subtask
deriving DecidableEq

/-- The taskData object of handleFormSubmit (lines 1027-1038). The source
object carries no createdAt key at this point: the edit branch keeps the
existing createdAt and the create branch sets it to now, so callers override
the placeholder 0 written here. -/
def taskDataOf (f : FormInput) (now : Nat) (id : String) (existing : Option Task) : Task :=
  { id := id
    title := if strTrim f.title == "" then "Untitled Task" else strTrim f.title
    description := strTrim f.description
    priority := f.priority
    status := f.status
    dueDate := f.dueDate
    pinned := (existing.map Task.pinned).getD false
    subtasks := if f.subtasks.isEmpty then (existing.map Task.subtasks).getD [] else f.subtasks
    files := (existing.map Task.files).getD []
    createdAt := 0
    updatedAt := some now }

/-- handleFormSubmit: when a task with the form id exists, Object.assign
merges taskData into that task in place (first match, createdAt kept);
otherwise taskData gets createdAt now and is pushed onto the end. -/
def handleFormSubmit (f : FormInput) (now : Nat) (s : BoardState) : BoardState :=
  let id := f.datasetId.getD (toString now)
  match s.tasks.find? (fun t => t.id == id) with
  | some _ =>
    let merge := fun t => { taskDataOf f now id (some t) with createdAt := t.createdAt }
    { s with tasks := modifyFirst (fun t => t.id == id) merge s.tasks }
  | Option.none =>
    { s with tasks := s.tasks ++ [{ taskDataOf f now id Option.none with createdAt := now }] }

/-! ## Operation sequences (for the status invariant)

A session-level state: the board plus the snapshots held by outstanding
clear-toast undo closures, so that invoking a clear undo at any later time is
expressible. -/

/-- Board state plus the snapshots captured by clear-toast closures. -/
structure SessionState where
  board : BoardState
  clearSnaps : List (List Task)
deriving DecidableEq

/-- The status string of a drop target column: drop zones only exist for the
three fixed columns, whose dataset.status is the column id. -/
def colStatus (i : Fin 3) : String :=
  if i.val = 0 then "todo" else if i.val = 1 then "progress" else "done"

/-- The user-drivable operations of the board core. A drop carries the target
column (drop zones exist only for the three columns); an undoClear names
which outstanding clear closure fires. -/
inductive Op where
  | load (docs : List RemoteDoc) (nowFallback : Nat)
  | submit (f : FormInput) (now : Nat)
  | dropOn (taskId : String) (col : Fin 3)
  | dup (id : String) (now : Nat)
  | pin (id : String)
  | del (id : String) (now : Nat)
  | undoDel
  | clear
  | undoClear (i : Nat)

/-- One operation applied to the session state. -/
def stepOp (st : SessionState) (op : Op) : SessionState :=
  match op with
  | Op.load docs nf => { st with board := loadTasksFromFirebase docs nf st.board }
  | Op.submit f now => { st with board := handleFormSubmit f now st.board }
  | Op.dropOn id col => { st with board := updateTaskStatus id (colStatus col) st.board }
  | Op.dup id now => { st with board := duplicateTask id now st.board }
  | Op.pin id => { st with board := togglePin id st.board }
  | Op.del id now => { st with board := deleteTask id now st.board }
  | Op.undoDel => { st with board := undoDelete st.board }
  | Op.clear =>
    let r := clearBoard st.board
    { board := r.1, clearSnaps := r.2 :: st.clearSnaps }
  | Op.undoClear i =>
    match st.clearSnaps.get? i with
    | some prev => { st with board := runClearUndo prev st.board }
    | Option.none => st

/-- Run a sequence of operations. -/
def runOps (ops : List Op) (st : SessionState) : SessionState := ops.foldl stepOp st

/-- The initial session: the empty board of script.js line 11 and no
outstanding closures. -/
def initSession : SessionState :=
  { board := { tasks := [], filterQuery := "", priorityFilter := "all",
               sortOrder := SortOrder.none, lastDeletedTask := Option.none }
    clearSnaps := [] }

/-- Membership in the fixed status set. -/
def validStatus (s : String) : Prop := s = "todo" ∨ s = "progress" ∨ s = "done"

instance decValidStatus (s : String) : Decidable (validStatus s) :=
  inferInstanceAs (Decidable (_ ∨ _))

/-- The validity assumptions on an operation: remote documents carry a status
from the documented enum (README: status is one of todo, progress, done), and
the form status select offers exactly the three column values. All other
operations inject no status from outside the model. -/
def opValid : Op → Prop
  | Op.load docs _ => ∀ d ∈ docs, validStatus d.status
  | Op.submit f _ => validStatus f.status
  | _ => True

instance decOpValid : (op : Op) → Decidable (opValid op)
  | Op.load docs _ => inferInstanceAs (Decidable (∀ d ∈ docs, validStatus d.status))
  | Op.submit f _ => inferInstanceAs (Decidable (validStatus f.status))
  | Op.dropOn _ _ => inferInstanceAs (Decidable True)
  | Op.dup _ _ => inferInstanceAs (Decidable True)
  | Op.pin _ => inferInstanceAs (Decidable True)
  | Op.del _ _ => inferInstanceAs (Decidable True)
  | Op.undoDel => inferInstanceAs (Decidable True)
  | Op.clear => inferInstanceAs (Decidable True)
  | Op.undoClear _ => inferInstanceAs (Decidable True)

/-- Every task of a list carries a status from the fixed set. -/
def goodTasks (l : List Task) : Prop := ∀ t ∈ l, validStatus t.status

/-- The strengthened status invariant: it covers the visible task list, the
delete register and the snapshots held by outstanding clear closures, so that
every restoration path stays inside the fixed status set. -/
def sessionInv (st : SessionState) : Prop :=
  goodTasks st.board.tasks
  ∧ (∀ snap, st.board.lastDeletedTask = some snap → validStatus snap.task.status)
  ∧ ∀ l ∈ st.clearSnaps, goodTasks l

/-- The value table the renderBoard comparator actually realises (see
sortCompareArrayResult): the due-date branch contributes 0, so only the
pinned flags decide. -/
def pinCmp (a b : Task) : Int :=
  if a.pinned && !b.pinned then -1 else if !a.pinned && b.pinned then 1 else 0

/-- Modelled from the spec retain sentence, for comparison with the code
filter of renderBoard: query empty or a case-insensitive substring of title
or description, and priority filter "all" or case-insensitively equal to the
task priority. -/
def specRetain (q pf : String) (t : Task) : Prop :=
  (q = "" ∨ containsSub (strLower t.title) (strLower q) = true
    ∨ containsSub (strLower t.description) (strLower q) = true)
  ∧ (pf = "all" ∨ strLower t.priority = strLower pf)

/-! ## Concrete sample data, used by closed evaluations and witnesses -/

/-- A plain unpinned todo task with the given id and due date. -/
def sampleTask (id : String) (due : Option Int) : Task :=
  { id := id, title := "Task " ++ id, description := "", status := "todo",
    priority := "medium", dueDate := due, pinned := false, subtasks := [],
    files := [], createdAt := 0, updatedAt := Option.none }

/-- Due 2024-06-01 (epoch milliseconds). -/
def juneTask : Task := sampleTask "1" (some 1717200000000)

/-- Due 2024-01-01 (epoch milliseconds). -/
def janTask : Task := sampleTask "2" (some 1704067200000)

/-- A board state with the given tasks and sort order, no filters, empty
register. -/
def sampleState (ts : List Task) (so : SortOrder) : BoardState :=
  { tasks := ts, filterQuery := "", priorityFilter := "all", sortOrder := so,
    lastDeletedTask := Option.none }

/-- A small operation sequence: load one remote document, then drop the task
onto the progress column. -/
def c3ops : List Op :=
  [Op.load [{ docId := "a", title := "Study", status := "todo", dueDate := Option.none,
              description := Option.none, priority := Option.none,
              createdAt := Option.none }] 5,
   Op.dropOn "a" 1]

/-! ## General lemmas about the list combinators -/

theorem find_split (p : α → Bool) (l : List α) (a : α) (h : l.find? p = some a) :
    ∃ l1 l2, l = l1 ++ a :: l2 ∧ (∀ b ∈ l1, p b = false) ∧ p a = true := by
  induction l with
  | nil => simp at h
  | cons x xs ih =>
    cases hx : p x with
    | true =>
      rw [List.find?_cons_of_pos _ hx] at h
      injection h with h
      subst h
      exact ⟨[], xs, rfl, by intro b hb; simp at hb, hx⟩
    | false =>
      rw [List.find?_cons_of_neg _ (by simp [hx])] at h
      obtain ⟨l1, l2, h1, h2, h3⟩ := ih h
      refine ⟨x :: l1, l2, by rw [h1]; rfl, ?_, h3⟩
      intro b hb
      rcases List.mem_cons.mp hb with hb | hb
      · rw [hb]; exact hx
      · exact h2 b hb

theorem modifyFirst_of_forall_false (p : Task → Bool) (f : Task → Task) (l : List Task)
    (h : ∀ t ∈ l, p t = false) : modifyFirst p f l = l := by
  induction l with
  | nil => rfl
  | cons x xs ih =>
    have hx := h x (List.mem_cons_self x xs)
    simp only [modifyFirst, hx, Bool.false_eq_true, if_false]
    rw [ih (fun t ht => h t (List.mem_cons_of_mem x ht))]

theorem modifyFirst_append (p : Task → Bool) (f : Task → Task) (l1 l2 : List Task) (t : Task)
    (h1 : ∀ b ∈ l1, p b = false) (ht : p t = true) :
    modifyFirst p f (l1 ++ t :: l2) = l1 ++ f t :: l2 := by
  induction l1 with
  | nil => simp [modifyFirst, ht]
  | cons x xs ih =>
    have hx := h1 x (List.mem_cons_self x xs)
    simp only [List.cons_append, modifyFirst, hx, Bool.false_eq_true, if_false]
    exact congrArg (x :: ·) (ih (fun b hb => h1 b (List.mem_cons_of_mem x hb)))

theorem mem_modifyFirst (p : Task → Bool) (f : Task → Task) (l : List Task) (t : Task) :
    t ∈ modifyFirst p f l → t ∈ l ∨ ∃ u, u ∈ l ∧ t = f u := by
  induction l with
  | nil => intro h; simp [modifyFirst] at h
  | cons x xs ih =>
    intro h
    by_cases hx : p x = true
    · simp only [modifyFirst, if_pos hx] at h
      rcases List.mem_cons.mp h with h | h
      · exact Or.inr ⟨x, List.mem_cons_self x xs, h⟩
      · exact Or.inl (List.mem_cons_of_mem x h)
    · simp only [modifyFirst, if_neg hx] at h
      rcases List.mem_cons.mp h with h | h
      · exact Or.inl (h ▸ List.mem_cons_self x xs)
      · rcases ih h with h2 | ⟨u, hu, he⟩
        · exact Or.inl (List.mem_cons_of_mem x h2)
        · exact Or.inr ⟨u, List.mem_cons_of_mem x hu, he⟩

theorem insertCmp_perm (cmp : α → α → Int) (a : α) (l : List α) :
    (insertCmp cmp a l).Perm (a :: l) := by
  induction l with
  | nil => exact List.Perm.refl [a]
  | cons b bs ih =>
    unfold insertCmp
    by_cases h : cmp a b ≤ 0
    · rw [if_pos h]
    · rw [if_neg h]
      exact (ih.cons b).trans (List.Perm.swap a b bs)

theorem stableSortCmp_perm (cmp : α → α → Int) (l : List α) :
    (stableSortCmp cmp l).Perm l := by
  induction l with
  | nil => exact List.Perm.refl []
  | cons a as ih =>
    exact (insertCmp_perm cmp a (stableSortCmp cmp as)).trans (ih.cons a)

theorem mem_stableSortCmp (cmp : α → α → Int) (l : List α) (x : α) :
    x ∈ stableSortCmp cmp l ↔ x ∈ l :=
  (stableSortCmp_perm cmp l).mem_iff

/-! ## Claim theorems -/

/-- Claim C9: toggling the sort order maps "none" to "asc", "asc" to "desc"
and "desc" to "none" (a 3-cycle), and leaves the task collection and the
undo register untouched. -/
theorem c9_sort_toggle_cycle (s : BoardState) :
    cycleSortOrder SortOrder.none = SortOrder.asc
    ∧ cycleSortOrder SortOrder.asc = SortOrder.desc
    ∧ cycleSortOrder SortOrder.desc = SortOrder.none
    ∧ (toggleSortOrder s).tasks = s.tasks
    ∧ (toggleSortOrder s).lastDeletedTask = s.lastDeletedTask :=
  ⟨rfl, rfl, rfl, rfl, rfl⟩

/-- Claim C7: when no task carries the given id, each of the four
id-referencing mutations (status update, pin toggle, duplicate, delete)
returns the state unchanged: task list and undo register included, and no
error is possible since the functions are total. -/
theorem c7_missing_id_noop (s : BoardState) (id st : String) (now1 now2 : Nat)
    (h : s.tasks.find? (fun t => t.id == id) = Option.none) :
    updateTaskStatus id st s = s ∧ togglePin id s = s
    ∧ duplicateTask id now1 s = s ∧ deleteTask id now2 s = s := by
  have hall : ∀ t ∈ s.tasks, (t.id == id) = false := by
    intro t ht
    have := List.find?_eq_none.mp h t ht
    simpa using this
  refine ⟨?_, ?_, ?_, ?_⟩
  · simp only [updateTaskStatus]
    rw [modifyFirst_of_forall_false _ _ _ hall]
  · simp only [togglePin]
    rw [modifyFirst_of_forall_false _ _ _ hall]
  · simp only [duplicateTask, h]
  · simp only [deleteTask, h]

/-- Witness for C7 at a concrete store and absent id. -/
theorem c7_missing_id_noop_witness :
    updateTaskStatus "999" "done" (sampleState [juneTask, janTask] SortOrder.none)
      = sampleState [juneTask, janTask] SortOrder.none
    ∧ togglePin "999" (sampleState [juneTask, janTask] SortOrder.none)
      = sampleState [juneTask, janTask] SortOrder.none
    ∧ duplicateTask "999" 3 (sampleState [juneTask, janTask] SortOrder.none)
      = sampleState [juneTask, janTask] SortOrder.none
    ∧ deleteTask "999" 4 (sampleState [juneTask, janTask] SortOrder.none)
      = sampleState [juneTask, janTask] SortOrder.none :=
  c7_missing_id_noop (sampleState [juneTask, janTask] SortOrder.none) "999" "done" 3 4
    (by decide)

/-- Claim C10: duplicating a present task prepends exactly one new record to
the store: a copy of the original with id set to the fresh timestamp string,
fresh createdAt and updatedAt, the title suffixed with " (Copy)" unless it
already contains it, every other field copied, the original list kept as the
tail, and the length grown by one; under the freshness of the timestamp the
new id differs from every existing id. -/
theorem c10_duplicate_prepends_copy (s : BoardState) (id : String) (now : Nat) (t : Task)
    (hfind : s.tasks.find? (fun u => u.id == id) = some t)
    (hfresh : ∀ u ∈ s.tasks, u.id ≠ toString now) :
    (duplicateTask id now s).tasks = duplicatedTask t now :: s.tasks
    ∧ (duplicateTask id now s).tasks.length = s.tasks.length + 1
    ∧ (duplicatedTask t now).id = toString now
    ∧ (duplicatedTask t now).createdAt = now
    ∧ (duplicatedTask t now).updatedAt = some now
    ∧ (duplicatedTask t now).title
        = (if containsSub t.title copySuffix then t.title else t.title ++ copySuffix)
    ∧ (duplicatedTask t now).status = t.status
    ∧ (duplicatedTask t now).description = t.description
    ∧ (duplicatedTask t now).priority = t.priority
    ∧ (duplicatedTask t now).dueDate = t.dueDate
    ∧ (duplicatedTask t now).pinned = t.pinned
    ∧ (duplicatedTask t now).subtasks = t.subtasks
    ∧ (duplicatedTask t now).files = t.files
    ∧ (∀ u ∈ s.tasks, (duplicatedTask t now).id ≠ u.id) := by
  refine ⟨?_, ?_, rfl, rfl, rfl, rfl, rfl, rfl, rfl, rfl, rfl, rfl, rfl, ?_⟩
  · simp only [duplicateTask, hfind]
  · simp only [duplicateTask, hfind, List.length_cons]
  · intro u hu
    exact fun he => hfresh u hu (by rw [← he]; rfl)

/-- Witness for C10 at a concrete store. -/
theorem c10_duplicate_prepends_copy_witness :
    (duplicateTask "1" 1000 (sampleState [juneTask, janTask] SortOrder.none)).tasks
        = duplicatedTask juneTask 1000 :: (sampleState [juneTask, janTask] SortOrder.none).tasks
    ∧ (duplicateTask "1" 1000 (sampleState [juneTask, janTask] SortOrder.none)).tasks.length
        = (sampleState [juneTask, janTask] SortOrder.none).tasks.length + 1
    ∧ (duplicatedTask juneTask 1000).id = toString 1000
    ∧ (duplicatedTask juneTask 1000).createdAt = 1000
    ∧ (duplicatedTask juneTask 1000).updatedAt = some 1000
    ∧ (duplicatedTask juneTask 1000).title
        = (if containsSub juneTask.title copySuffix then juneTask.title
           else juneTask.title ++ copySuffix)
    ∧ (duplicatedTask juneTask 1000).status = juneTask.status
    ∧ (duplicatedTask juneTask 1000).description = juneTask.description
    ∧ (duplicatedTask juneTask 1000).priority = juneTask.priority
    ∧ (duplicatedTask juneTask 1000).dueDate = juneTask.dueDate
    ∧ (duplicatedTask juneTask 1000).pinned = juneTask.pinned
    ∧ (duplicatedTask juneTask 1000).subtasks = juneTask.subtasks
    ∧ (duplicatedTask juneTask 1000).files = juneTask.files
    ∧ (∀ u ∈ (sampleState [juneTask, janTask] SortOrder.none).tasks,
        (duplicatedTask juneTask 1000).id ≠ u.id) :=
  c10_duplicate_prepends_copy (sampleState [juneTask, janTask] SortOrder.none) "1" 1000
    juneTask (by decide) (by decide)

/-- Claim C1, evaluated at the input the spec scenario describes: two unpinned
todo tasks due 2024-06-01 and 2024-01-01 in that store order, sortOrder
"asc". The displayed column order stays the store order [june, january],
while the due-date-ascending order the claim states is [january, june]: the
renderBoard comparator returns the Array produced by sortTasksByDueDate, the
ES sort coerces it to NaN and then +0, so the due-date branch never reorders
anything. The intent is documented in the source (the comment "then by due
date if enabled" and the sort button tooltips), so this is a code bug rather
than a spec error. -/
theorem c1_sort_claim_fails_on_code :
    projectColumn (sampleState [juneTask, janTask] SortOrder.asc) "todo" = [juneTask, janTask]
    ∧ sortTasksByDueDate [juneTask, janTask] SortOrder.asc = [janTask, juneTask]
    ∧ projectColumn (sampleState [juneTask, janTask] SortOrder.asc) "todo"
        ≠ sortTasksByDueDate [juneTask, janTask] SortOrder.asc := by
  refine ⟨by decide, by decide, by decide⟩

/-- Counterexample to claim C2 as stated: the register is not shared between
deletes and board clears. Starting from tasks [1, 2], delete task 1 (first
capture), then clear the board (second capture). The claim says the second
capture discards the first, so at most one of the two could be restored
afterwards; but the delete register survives the clear untouched, invoking
the clear undo restores [2], and invoking the delete undo afterwards still
restores task 1, so both captured actions are restored. -/
theorem c2_both_captures_restore :
    (clearBoard (deleteTask "1" 100 (sampleState [juneTask, janTask] SortOrder.none))).1.lastDeletedTask
        = some { task := juneTask, deletedAt := 100 }
    ∧ (runClearUndo
        (clearBoard (deleteTask "1" 100 (sampleState [juneTask, janTask] SortOrder.none))).2
        (clearBoard (deleteTask "1" 100 (sampleState [juneTask, janTask] SortOrder.none))).1).tasks
        = [janTask]
    ∧ (undoDelete (runClearUndo
        (clearBoard (deleteTask "1" 100 (sampleState [juneTask, janTask] SortOrder.none))).2
        (clearBoard (deleteTask "1" 100 (sampleState [juneTask, janTask] SortOrder.none))).1)).tasks
        = [janTask, juneTask] := by
  refine ⟨by decide, by decide, by decide⟩

/-- Claim C2 amended: the single overwrite-on-capture slot exists for
single-task deletes only. Any delete of a present task overwrites whatever
the register held with the new snapshot, and the delete undo clears the slot,
so a second delete undo is a no-op: at most one delete can be restored. Board
clears are captured in an independent toast closure and neither overwrite nor
are overwritten by this register. -/
theorem c2_single_slot_for_deletes (s : BoardState) (id : String) (now : Nat) (t : Task)
    (hfind : s.tasks.find? (fun u => u.id == id) = some t) :
    (deleteTask id now s).lastDeletedTask = some { task := t, deletedAt := now }
    ∧ undoDelete (undoDelete s) = undoDelete s
    ∧ ∀ prev, (runClearUndo prev (clearBoard s).1).lastDeletedTask = s.lastDeletedTask := by
  refine ⟨?_, ?_, ?_⟩
  · simp only [deleteTask, hfind]
  · cases hreg : s.lastDeletedTask with
    | none => simp only [undoDelete, hreg]
    | some snap => simp only [undoDelete, hreg]
  · intro prev
    rfl

/-- Witness for the amended C2 at a concrete store. -/
theorem c2_single_slot_for_deletes_witness :
    (deleteTask "1" 7 (sampleState [juneTask, janTask] SortOrder.none)).lastDeletedTask
        = some { task := juneTask, deletedAt := 7 }
    ∧ undoDelete (undoDelete (sampleState [juneTask, janTask] SortOrder.none))
        = undoDelete (sampleState [juneTask, janTask] SortOrder.none)
    ∧ ∀ prev, (runClearUndo prev
        (clearBoard (sampleState [juneTask, janTask] SortOrder.none)).1).lastDeletedTask
        = (sampleState [juneTask, janTask] SortOrder.none).lastDeletedTask :=
  c2_single_slot_for_deletes (sampleState [juneTask, janTask] SortOrder.none) "1" 7 juneTask
    (by decide)

/-- Claim C8: a drop invokes updateTaskStatus with the target column status.
When the target status equals the current status of the addressed task, the
store is unchanged (the code assigns the same value, so only the re-render
is observable); when it differs, exactly the first task with that id has its
status field replaced and every other task, every other field, and the rest
of the state are untouched. -/
theorem c8_drop_mutation_frame (s : BoardState) (id st : String) (t : Task)
    (hfind : s.tasks.find? (fun u => u.id == id) = some t) :
    (t.status = st → updateTaskStatus id st s = s)
    ∧ ∃ l1 l2, s.tasks = l1 ++ t :: l2 ∧ (∀ u ∈ l1, (u.id == id) = false)
        ∧ (updateTaskStatus id st s).tasks = l1 ++ { t with status := st } :: l2
        ∧ (updateTaskStatus id st s).lastDeletedTask = s.lastDeletedTask
        ∧ (updateTaskStatus id st s).sortOrder = s.sortOrder := by
  obtain ⟨l1, l2, heq, h1, hpt⟩ := find_split _ _ _ hfind
  have hmod : modifyFirst (fun u => u.id == id) (fun u => { u with status := st }) s.tasks
      = l1 ++ { t with status := st } :: l2 := by
    rw [heq]
    exact modifyFirst_append _ _ _ _ _ h1 hpt
  constructor
  · intro hst
    subst hst
    simp only [updateTaskStatus]
    rw [hmod]
    have : ({ t with status := t.status } : Task) = t := rfl
    rw [this, ← heq]
  · exact ⟨l1, l2, heq, h1, by simp only [updateTaskStatus]; rw [hmod], rfl, rfl⟩

/-- Witness for C8: drop juneTask (status "todo") onto a column. -/
theorem c8_drop_mutation_frame_witness :
    (juneTask.status = "done"
      → updateTaskStatus "1" "done" (sampleState [juneTask, janTask] SortOrder.none)
          = sampleState [juneTask, janTask] SortOrder.none)
    ∧ ∃ l1 l2, (sampleState [juneTask, janTask] SortOrder.none).tasks = l1 ++ juneTask :: l2
        ∧ (∀ u ∈ l1, (u.id == "1") = false)
        ∧ (updateTaskStatus "1" "done" (sampleState [juneTask, janTask] SortOrder.none)).tasks
            = l1 ++ { juneTask with status := "done" } :: l2
        ∧ (updateTaskStatus "1" "done"
            (sampleState [juneTask, janTask] SortOrder.none)).lastDeletedTask
            = (sampleState [juneTask, janTask] SortOrder.none).lastDeletedTask
        ∧ (updateTaskStatus "1" "done" (sampleState [juneTask, janTask] SortOrder.none)).sortOrder
            = (sampleState [juneTask, janTask] SortOrder.none).sortOrder :=
  c8_drop_mutation_frame (sampleState [juneTask, janTask] SortOrder.none) "1" "done" juneTask
    (by decide)

/-- Claim C6: deleting a present task places the full snapshot tagged with
the deletion timestamp in the register; invoking the undo then pushes exactly
the untagged original task back, yields a task multiset equal to the
pre-delete one (ids being unique in the store), and clears the register. -/
theorem c6_delete_then_undo_roundtrip (s : BoardState) (id : String) (t : Task) (now : Nat)
    (hfind : s.tasks.find? (fun u => u.id == id) = some t)
    (hnodup : (s.tasks.map Task.id).Nodup) :
    (deleteTask id now s).lastDeletedTask = some { task := t, deletedAt := now }
    ∧ (undoDelete (deleteTask id now s)).tasks = (deleteTask id now s).tasks ++ [t]
    ∧ ((undoDelete (deleteTask id now s)).tasks).Perm s.tasks
    ∧ (undoDelete (deleteTask id now s)).lastDeletedTask = Option.none := by
  obtain ⟨l1, l2, heq, h1, hpt⟩ := find_split _ _ _ hfind
  have htid : t.id = id := by simpa using hpt
  have h2 : ∀ b ∈ l2, (b.id == id) = false := by
    rw [heq] at hnodup
    simp only [List.map_append, List.map_cons, List.nodup_append, List.nodup_cons] at hnodup
    intro b hb
    have hne : t.id ∉ l2.map Task.id := hnodup.2.1.1
    have : b.id ≠ t.id := fun he => hne (he ▸ List.mem_map_of_mem Task.id hb)
    simp [htid ▸ this]
  have hfilter : s.tasks.filter (fun u => !(u.id == id)) = l1 ++ l2 := by
    rw [heq, List.filter_append, List.filter_cons]
    rw [List.filter_eq_self.mpr (fun b hb => by simp [h1 b hb])]
    rw [List.filter_eq_self.mpr (fun b hb => by simp [h2 b hb])]
    simp [hpt]
  refine ⟨by simp only [deleteTask, hfind], by simp only [deleteTask, hfind, undoDelete], ?_, ?_⟩
  · simp only [deleteTask, hfind, undoDelete]
    rw [hfilter, heq, List.append_assoc]
    exact List.Perm.append_left l1 (List.perm_append_singleton t l2)
  · simp only [deleteTask, hfind, undoDelete]

/-- Witness for C6 at a concrete two-task store. -/
theorem c6_delete_then_undo_roundtrip_witness :
    (deleteTask "1" 9 (sampleState [juneTask, janTask] SortOrder.none)).lastDeletedTask
        = some { task := juneTask, deletedAt := 9 }
    ∧ (undoDelete (deleteTask "1" 9 (sampleState [juneTask, janTask] SortOrder.none))).tasks
        = (deleteTask "1" 9 (sampleState [juneTask, janTask] SortOrder.none)).tasks ++ [juneTask]
    ∧ ((undoDelete (deleteTask "1" 9 (sampleState [juneTask, janTask] SortOrder.none))).tasks).Perm
        (sampleState [juneTask, janTask] SortOrder.none).tasks
    ∧ (undoDelete (deleteTask "1" 9
        (sampleState [juneTask, janTask] SortOrder.none))).lastDeletedTask = Option.none :=
  c6_delete_then_undo_roundtrip (sampleState [juneTask, janTask] SortOrder.none) "1" juneTask 9
    (by decide) (by decide)

theorem renderCmp_eq_pinCmp (so : SortOrder) (a b : Task) : renderCmp so a b = pinCmp a b := by
  unfold renderCmp pinCmp sortCompareArrayResult
  split_ifs <;> rfl

theorem insertCmp_pinCmp_pinned (a : Task) (P U : List Task) (ha : a.pinned = true)
    (hP : ∀ b ∈ P, b.pinned = true) (hU : ∀ b ∈ U, b.pinned = false) :
    insertCmp pinCmp a (P ++ U) = a :: (P ++ U) := by
  cases P with
  | nil =>
    cases U with
    | nil => rfl
    | cons u us =>
      have hu := hU u (List.mem_cons_self u us)
      simp [insertCmp, pinCmp, ha, hu]
  | cons p ps =>
    have hp := hP p (List.mem_cons_self p ps)
    simp [insertCmp, pinCmp, ha, hp]

theorem insertCmp_pinCmp_unpinned (a : Task) (P U : List Task) (ha : a.pinned = false)
    (hP : ∀ b ∈ P, b.pinned = true) (hU : ∀ b ∈ U, b.pinned = false) :
    insertCmp pinCmp a (P ++ U) = P ++ a :: U := by
  induction P with
  | nil =>
    cases U with
    | nil => rfl
    | cons u us =>
      have hu := hU u (List.mem_cons_self u us)
      simp [insertCmp, pinCmp, ha, hu]
  | cons p ps ih =>
    have hp := hP p (List.mem_cons_self p ps)
    have hrec := ih (fun b hb => hP b (List.mem_cons_of_mem p hb))
    simp only [List.cons_append, insertCmp, pinCmp, ha, hp]
    simp only [Bool.not_true, Bool.not_false, Bool.and_false, Bool.false_and,
      Bool.true_and, Bool.and_true]
    exact congrArg (p :: ·) hrec

theorem filter_partition (p : Task → Bool) (P U : List Task)
    (hP : ∀ b ∈ P, p b = true) (hU : ∀ b ∈ U, p b = false) :
    (P ++ U).filter p = P ∧ (P ++ U).filter (fun t => !p t) = U := by
  have e1 : P.filter p = P := List.filter_eq_self.mpr hP
  have e2 : U.filter p = [] := List.filter_eq_nil_iff.mpr (fun b hb => by simp [hU b hb])
  have e3 : P.filter (fun t => !p t) = [] :=
    List.filter_eq_nil_iff.mpr (fun b hb => by simp [hP b hb])
  have e4 : U.filter (fun t => !p t) = U :=
    List.filter_eq_self.mpr (fun b hb => by simp [hU b hb])
  rw [List.filter_append, List.filter_append, e1, e2, e3, e4, List.append_nil,
    List.nil_append]
  exact ⟨rfl, rfl⟩

theorem stableSortCmp_pinCmp_partition (l : List Task) :
    stableSortCmp pinCmp l
      = l.filter (fun t => t.pinned) ++ l.filter (fun t => !t.pinned) := by
  induction l with
  | nil => rfl
  | cons a as ih =>
    have hP : ∀ b ∈ as.filter (fun t => t.pinned), b.pinned = true := by
      intro b hb
      simpa using List.of_mem_filter hb
    have hU : ∀ b ∈ as.filter (fun t => !t.pinned), b.pinned = false := by
      intro b hb
      simpa using List.of_mem_filter hb
    cases ha : a.pinned with
    | true =>
      simp only [stableSortCmp, ih]
      rw [insertCmp_pinCmp_pinned a _ _ ha hP hU]
      simp [List.filter_cons, ha]
    | false =>
      simp only [stableSortCmp, ih]
      rw [insertCmp_pinCmp_unpinned a _ _ ha hP hU]
      simp [List.filter_cons, ha]

/-- Claim C4: in every projected column order, under every sortOrder value,
pinned tasks all precede unpinned tasks, and tasks with equal pinned status
keep their relative store order (the projected pinned and unpinned
subsequences are exactly the store-ordered filtered ones). -/
theorem c4_pinned_first_stable (s : BoardState) (colId : String) :
    List.Pairwise (fun a b : Task => b.pinned = true → a.pinned = true)
      (projectColumn s colId)
    ∧ (projectColumn s colId).filter (fun t => t.pinned)
        = (s.tasks.filter (fun t => inColumnView s colId t)).filter (fun t => t.pinned)
    ∧ (projectColumn s colId).filter (fun t => !t.pinned)
        = (s.tasks.filter (fun t => inColumnView s colId t)).filter (fun t => !t.pinned) := by
  have hfun : renderCmp s.sortOrder = pinCmp :=
    funext fun a => funext fun b => renderCmp_eq_pinCmp s.sortOrder a b
  have hproj : projectColumn s colId
      = (s.tasks.filter (fun t => inColumnView s colId t)).filter (fun t => t.pinned)
        ++ (s.tasks.filter (fun t => inColumnView s colId t)).filter (fun t => !t.pinned) := by
    unfold projectColumn
    rw [hfun, stableSortCmp_pinCmp_partition]
  have hP : ∀ b ∈ (s.tasks.filter (fun t => inColumnView s colId t)).filter
      (fun t => t.pinned), b.pinned = true := by
    intro b hb
    simpa using List.of_mem_filter hb
  have hU : ∀ b ∈ (s.tasks.filter (fun t => inColumnView s colId t)).filter
      (fun t => !t.pinned), b.pinned = false := by
    intro b hb
    simpa using List.of_mem_filter hb
  obtain ⟨hfL, hfR⟩ := filter_partition (fun t => t.pinned)
    ((s.tasks.filter (fun t => inColumnView s colId t)).filter (fun t => t.pinned))
    ((s.tasks.filter (fun t => inColumnView s colId t)).filter (fun t => !t.pinned)) hP hU
  refine ⟨?_, ?_, ?_⟩
  · rw [hproj, List.pairwise_append]
    refine ⟨?_, ?_, ?_⟩
    · exact List.Pairwise.imp_of_mem (fun ha _ _ => fun _ => hP _ ha)
        (List.pairwise_of_forall_mem_list (fun a _ b _ => trivial))
    · refine List.pairwise_of_forall_mem_list ?_
      intro a _ b hb
      intro hbp
      exact absurd hbp (by simp [hU b hb])
    · intro a ha b _
      exact fun _ => hP a ha
  · rw [hproj]
    exact hfL
  · rw [hproj]
    exact hfR

theorem strLower_eq_empty (q : String) (h : strLower q = "") : q = "" := by
  cases q with
  | mk l =>
    cases l with
    | nil => rfl
    | cons c cs => exact absurd h (by simp [strLower, String.ext_iff])

theorem contains_empty_receiver (sub : String) (h : containsSub "" sub = true) : sub = "" := by
  cases sub with
  | mk l =>
    cases l with
    | nil => rfl
    | cons c cs => exact Bool.noConfusion h

theorem matchesSearch_iff (q : String) (t : Task) :
    matchesSearch q t = true
      ↔ (q = "" ∨ containsSub (strLower t.title) (strLower q) = true
          ∨ containsSub (strLower t.description) (strLower q) = true) := by
  unfold matchesSearch
  simp only [Bool.or_eq_true, Bool.and_eq_true, beq_iff_eq, bne_iff_ne, ne_eq]
  constructor
  · intro h
    tauto
  · intro h
    rcases h with h | h | h
    · tauto
    · tauto
    · by_cases hd : t.description = ""
      · rw [hd] at h
        have hq : q = "" := strLower_eq_empty q (contains_empty_receiver (strLower q) h)
        tauto
      · tauto

theorem matchesPriority_iff (pf : String) (t : Task) (hlow : strLower pf = pf)
    (hne : pf ≠ "") :
    (matchesPriority pf t = true ↔ (pf = "all" ∨ strLower t.priority = strLower pf)) := by
  unfold matchesPriority
  simp only [Bool.or_eq_true, Bool.and_eq_true, beq_iff_eq, bne_iff_ne, ne_eq]
  rw [hlow]
  constructor
  · intro h
    rcases h with h | ⟨h1, h2⟩
    · exact Or.inl h
    · exact Or.inr h2
  · intro h
    rcases h with h | h
    · exact Or.inl h
    · refine Or.inr ⟨?_, h⟩
      intro h0
      rw [h0] at h
      exact hne h.symm

/-- Claim C5: a task of a column bucket is retained in the projected view iff
the spec retain predicate holds: the query is empty or a case-insensitive
substring of the title or of the description, and the priority filter is
"all" or case-insensitively equal to the task priority. The filter value
ranges over the four select values the source documents (all, high, medium,
low). -/
theorem c5_retain_iff_spec (s : BoardState) (colId : String) (t : Task)
    (ht : t ∈ s.tasks) (hstatus : t.status = colId)
    (hpf : s.priorityFilter = "all" ∨ s.priorityFilter = "high"
      ∨ s.priorityFilter = "medium" ∨ s.priorityFilter = "low") :
    (t ∈ projectColumn s colId ↔ specRetain s.filterQuery s.priorityFilter t) := by
  have hlow : strLower s.priorityFilter = s.priorityFilter := by
    rcases hpf with h | h | h | h <;> rw [h] <;> decide
  have hne : s.priorityFilter ≠ "" := by
    rcases hpf with h | h | h | h <;> rw [h] <;> decide
  unfold projectColumn
  rw [mem_stableSortCmp, List.mem_filter]
  unfold inColumnView
  simp only [Bool.and_eq_true, beq_iff_eq]
  rw [matchesSearch_iff, matchesPriority_iff s.priorityFilter t hlow hne]
  unfold specRetain
  constructor <;> intro h <;> tauto

/-- Witness for C5: the concrete two-task board with empty query and filter
"all". -/
theorem c5_retain_iff_spec_witness :
    (juneTask ∈ projectColumn (sampleState [juneTask, janTask] SortOrder.none) "todo"
      ↔ specRetain "" "all" juneTask) :=
  c5_retain_iff_spec (sampleState [juneTask, janTask] SortOrder.none) "todo" juneTask
    (by decide) rfl (Or.inl rfl)

theorem colStatus_valid (i : Fin 3) : validStatus (colStatus i) := by
  fin_cases i <;> decide

theorem handleFormSubmit_register (f : FormInput) (now : Nat) (b : BoardState) :
    (handleFormSubmit f now b).lastDeletedTask = b.lastDeletedTask := by
  simp only [handleFormSubmit]
  split <;> rfl

theorem duplicateTask_register (id : String) (now : Nat) (b : BoardState) :
    (duplicateTask id now b).lastDeletedTask = b.lastDeletedTask := by
  simp only [duplicateTask]
  split <;> rfl

theorem stepOp_preserves (st : SessionState) (op : Op)
    (h : sessionInv st) (hop : opValid op) : sessionInv (stepOp st op) := by
  obtain ⟨hb, hreg, hsnaps⟩ := h
  cases op with
  | load docs nf =>
    refine ⟨?_, hreg, hsnaps⟩
    intro t ht
    simp only [stepOp, loadTasksFromFirebase, List.mem_map] at ht
    obtain ⟨d, hd, rfl⟩ := ht
    exact hop d hd
  | submit f now =>
    refine ⟨?_, ?_, hsnaps⟩
    case submit.refine_2 =>
      simp only [stepOp, handleFormSubmit_register]
      exact hreg
    intro t ht
    simp only [stepOp, handleFormSubmit] at ht
    cases hfind : st.board.tasks.find? (fun u => u.id == f.datasetId.getD (toString now)) with
    | some u =>
      rw [hfind] at ht
      rcases mem_modifyFirst _ _ _ _ ht with h2 | ⟨u2, _, he⟩
      · exact hb t h2
      · rw [he]
        exact hop
    | none =>
      rw [hfind] at ht
      rcases List.mem_append.mp ht with h2 | h2
      · exact hb t h2
      · have : t = { taskDataOf f now (f.datasetId.getD (toString now)) Option.none
            with createdAt := now } := by simpa using h2
        rw [this]
        exact hop
  | dropOn id col =>
    refine ⟨?_, hreg, hsnaps⟩
    intro t ht
    simp only [stepOp, updateTaskStatus] at ht
    rcases mem_modifyFirst _ _ _ _ ht with h2 | ⟨u, _, he⟩
    · exact hb t h2
    · rw [he]
      exact colStatus_valid col
  | dup id now =>
    refine ⟨?_, ?_, hsnaps⟩
    case dup.refine_2 =>
      simp only [stepOp, duplicateTask_register]
      exact hreg
    intro t ht
    simp only [stepOp, duplicateTask] at ht
    cases hfind : st.board.tasks.find? (fun u => u.id == id) with
    | none =>
      rw [hfind] at ht
      exact hb t ht
    | some u =>
      rw [hfind] at ht
      rcases List.mem_cons.mp ht with h2 | h2
      · rw [h2]
        exact hb u (List.mem_of_find?_eq_some hfind)
      · exact hb t h2
  | pin id =>
    refine ⟨?_, hreg, hsnaps⟩
    intro t ht
    simp only [stepOp, togglePin] at ht
    rcases mem_modifyFirst _ _ _ _ ht with h2 | ⟨u, hu, he⟩
    · exact hb t h2
    · rw [he]
      exact hb u hu
  | del id now =>
    refine ⟨?_, ?_, hsnaps⟩
    · intro t ht
      simp only [stepOp, deleteTask] at ht
      cases hfind : st.board.tasks.find? (fun u => u.id == id) with
      | none =>
        rw [hfind] at ht
        exact hb t ht
      | some u =>
        rw [hfind] at ht
        exact hb t (List.mem_of_mem_filter ht)
    · intro snap hsnap
      simp only [stepOp, deleteTask] at hsnap
      cases hfind : st.board.tasks.find? (fun u => u.id == id) with
      | none =>
        rw [hfind] at hsnap
        exact hreg snap hsnap
      | some u =>
        rw [hfind] at hsnap
        have he : snap = { task := u, deletedAt := now } := by
          have := hsnap
          injection this with h2
          exact h2.symm
        rw [he]
        exact hb u (List.mem_of_find?_eq_some hfind)
  | undoDel =>
    refine ⟨?_, ?_, hsnaps⟩
    · intro t ht
      simp only [stepOp, undoDelete] at ht
      cases hreg2 : st.board.lastDeletedTask with
      | none =>
        rw [hreg2] at ht
        exact hb t ht
      | some snap =>
        rw [hreg2] at ht
        rcases List.mem_append.mp ht with h2 | h2
        · exact hb t h2
        · have : t = snap.task := by simpa using h2
          rw [this]
          exact hreg snap hreg2
    · intro snap2 hsnap
      simp only [stepOp, undoDelete] at hsnap
      cases hreg2 : st.board.lastDeletedTask with
      | none =>
        rw [hreg2] at hsnap
        exact hreg snap2 hsnap
      | some snap =>
        rw [hreg2] at hsnap
        exact Option.noConfusion hsnap
  | clear =>
    refine ⟨?_, hreg, ?_⟩
    · intro t ht
      simp only [stepOp, clearBoard] at ht
      exact absurd ht (List.not_mem_nil t)
    · intro l hl
      simp only [stepOp, clearBoard] at hl
      rcases List.mem_cons.mp hl with h2 | h2
      · rw [h2]
        exact hb
      · exact hsnaps l h2
  | undoClear i =>
    cases hget : st.clearSnaps.get? i with
    | none =>
      simp only [stepOp, hget]
      exact ⟨hb, hreg, hsnaps⟩
    | some prev =>
      simp only [stepOp, hget]
      refine ⟨?_, hreg, hsnaps⟩
      intro t ht
      simp only [runClearUndo] at ht
      exact hsnaps prev (List.get?_mem hget) t ht

theorem runOps_preserves (ops : List Op) (st : SessionState)
    (h : sessionInv st) (hops : ∀ op ∈ ops, opValid op) : sessionInv (runOps ops st) := by
  induction ops generalizing st with
  | nil => exact h
  | cons op ops ih =>
    exact ih (stepOp st op)
      (stepOp_preserves st op h (hops op (List.mem_cons_self op ops)))
      (fun o ho => hops o (List.mem_cons_of_mem op ho))

theorem initSession_inv : sessionInv initSession := by
  refine ⟨?_, ?_, ?_⟩
  · intro t ht
    exact absurd ht (List.not_mem_nil t)
  · intro snap h
    exact Option.noConfusion h
  · intro l hl
    exact absurd hl (List.not_mem_nil l)

/-- Claim C3: starting from the empty session, after any sequence of the
modelled operations (remote load, form create or edit, drag-and-drop status
update, duplicate, pin toggle, delete, delete undo, board clear, clear undo)
in which every loaded document and every submitted form carries a status from
the fixed set, every task in the store has a status in the fixed set
todo, progress, done. -/
theorem c3_status_invariant (ops : List Op) (hops : ∀ op ∈ ops, opValid op) :
    ∀ t ∈ (runOps ops initSession).board.tasks, validStatus t.status :=
  (runOps_preserves ops initSession initSession_inv hops).1

/-- Witness for C3: load one document, then drop it on the progress column. -/
theorem c3_status_invariant_witness :
    (∀ op ∈ c3ops, opValid op)
    ∧ ∀ t ∈ (runOps c3ops initSession).board.tasks, validStatus t.status :=
  ⟨by decide, c3_status_invariant c3ops (by decide)⟩

end Kanban
